import Mathlib

/-!
Shallow embedding of the TeraSpot ingestion pipeline and edge producer.

Python values are modelled by `PyVal` (JSON-like values over exact
rationals); Python `dict`s with string keys are association lists with
the usual insertion-ordered update semantics (`dget`, `dset`,
`dsetdefault`).  Each embedded function mirrors one function of the
repository; nondeterministic inputs of the source (the current UTC time,
`json.loads`, `datetime.fromisoformat`, `float()` on strings, `str()` of
compound values) are threaded as explicit parameters.
-/

namespace TeraSpot

/-- Model of a Python value as found in the JSON-like payloads of the
pipeline: `None`, booleans, numbers (exact rationals), strings, lists and
string-keyed dictionaries. -/
inductive PyVal where
  | null
  | boolean (b : Bool)
  | num (q : ℚ)
  | str (s : String)
  | arr (xs : List PyVal)
  | obj (kvs : List (String × PyVal))

mutual

/-- Model of the Python equality test between two values (numbers compare
by value, which `ℚ` already provides; lists and dictionaries compare
componentwise). -/
def pyEq : PyVal → PyVal → Bool
  | .null, .null => true
  | .boolean a, .boolean b => a == b
  | .num a, .num b => a == b
  | .str a, .str b => a == b
  | .arr xs, .arr ys => pyEqList xs ys
  | .obj xs, .obj ys => pyEqObj xs ys
  | _, _ => false

/-- Componentwise Python equality of two lists. -/
def pyEqList : List PyVal → List PyVal → Bool
  | [], [] => true
  | x :: xs, y :: ys => pyEq x y && pyEqList xs ys
  | _, _ => false

/-- Componentwise Python equality of two association lists. -/
def pyEqObj : List (String × PyVal) → List (String × PyVal) → Bool
  | [], [] => true
  | (k, v) :: xs, (k2, v2) :: ys => (k == k2) && pyEq v v2 && pyEqObj xs ys
  | _, _ => false

end

/-- A Python dictionary with string keys. -/
abbrev PyDict := List (String × PyVal)

/-- Python truthiness (`bool(v)`) for the modelled values. -/
def truthy : PyVal → Bool
  | .null => false
  | .boolean b => b
  | .num q => decide (q ≠ 0)
  | .str s => decide (s ≠ "")
  | .arr xs => !xs.isEmpty
  | .obj kvs => !kvs.isEmpty

/-- Dictionary read `d.get(k)`: the value stored at the first (unique in
Python) occurrence of key `k`, `none` when the key is absent. -/
def dget {α : Type} (k : String) : List (String × α) → Option α
  | [] => none
  | kv :: rest => if kv.1 = k then some kv.2 else dget k rest

/-- Membership test `k in d`. -/
def hasKey {α : Type} (k : String) (d : List (String × α)) : Bool :=
  (dget k d).isSome

/-- Dictionary write `d[k] = v`: replace the value in place when the key
exists, append a new binding otherwise (Python insertion-order
semantics). -/
def dset {α : Type} : List (String × α) → String → α → List (String × α)
  | [], k, v => [(k, v)]
  | kv :: rest, k, v => if kv.1 = k then (k, v) :: rest else kv :: dset rest k v

/-- Python `d.setdefault(k, v)`: insert `v` at the end when `k` is absent,
leave the dictionary unchanged otherwise. -/
def dsetdefault (d : PyDict) (k : String) (v : PyVal) : PyDict :=
  if hasKey k d then d else d ++ [(k, v)]

/-- Python `d.get(k)` on a dictionary of `PyVal`s as seen from Python:
an absent key and a stored `None` are both read back as `None`. -/
def pyGet (k : String) (d : PyDict) : PyVal :=
  (dget k d).getD .null

/-! ### Basic dictionary lemmas -/

theorem dget_append {α : Type} (k : String) (d₁ d₂ : List (String × α)) :
    dget k (d₁ ++ d₂) = (dget k d₁).orElse (fun _ => dget k d₂) := by
  induction d₁ with
  | nil => simp [dget]
  | cons kv rest ih =>
    by_cases h : kv.1 = k <;> simp [dget, h, ih]

theorem dget_dset_self {α : Type} (d : List (String × α)) (k : String) (v : α) :
    dget k (dset d k v) = some v := by
  induction d with
  | nil => simp [dset, dget]
  | cons kv rest ih =>
    by_cases h : kv.1 = k <;> simp [dset, dget, h, ih]

theorem dget_dset_ne {α : Type} (d : List (String × α)) (k k' : String) (v : α)
    (h : k' ≠ k) : dget k (dset d k' v) = dget k d := by
  induction d with
  | nil => simp [dset, dget, h]
  | cons kv rest ih =>
    simp only [dset]
    by_cases hk : kv.1 = k'
    · rw [if_pos hk]
      simp [dget, h, hk]
    · rw [if_neg hk]
      simp [dget, ih]

theorem dget_of_not_hasKey {α : Type} (d : List (String × α)) (k : String)
    (h : hasKey k d = false) : dget k d = none := by
  cases hd : dget k d with
  | none => rfl
  | some w => simp [hasKey, hd] at h

theorem dget_dsetdefault_of_hasKey (d : PyDict) (k : String) (v : PyVal)
    (h : hasKey k d = true) : dsetdefault d k v = d := by
  simp [dsetdefault, h]

theorem hasKey_dsetdefault_self (d : PyDict) (k : String) (v : PyVal) :
    hasKey k (dsetdefault d k v) = true := by
  cases hK : hasKey k d with
  | true => simp [dsetdefault, hK]
  | false =>
    have hd := dget_of_not_hasKey d k hK
    simp [dsetdefault, hK, hasKey, dget_append, hd, Option.orElse, dget]

theorem hasKey_dsetdefault_mono (d : PyDict) (k k' : String) (v : PyVal)
    (h : hasKey k d = true) : hasKey k (dsetdefault d k' v) = true := by
  cases hK : hasKey k' d with
  | true => simp [dsetdefault, hK, h]
  | false =>
    obtain ⟨w, hw⟩ := Option.isSome_iff_exists.mp h
    have hK2 : (dget k' d).isSome = false := hK
    simp [dsetdefault, hasKey, hK2, dget_append, hw, Option.orElse]

theorem dget_dsetdefault_of_some (d : PyDict) (k k' : String) (v w : PyVal)
    (h : dget k d = some w) : dget k (dsetdefault d k' v) = some w := by
  cases hK : hasKey k' d with
  | true => simp [dsetdefault, hK, h]
  | false => simp [dsetdefault, hK, dget_append, h, Option.orElse]

/-! ### qa.py: enrich_event -/

/-- Embedding of `enrich_event` (src/backend/lambdas/ingest_status/qa.py).
The source copies the event, then `setdefault`s `timestamp` (to the
current UTC time, passed here as `now`) and `device_id`, `facility_id`,
`zone_id`, `data_source` (each to the string `"unknown"`). -/
def enrich_event (now : String) (event : PyDict) : PyDict :=
  dsetdefault (dsetdefault (dsetdefault (dsetdefault (dsetdefault event
    "timestamp" (.str now))
    "device_id" (.str "unknown"))
    "facility_id" (.str "unknown"))
    "zone_id" (.str "unknown"))
    "data_source" (.str "unknown")

theorem enrich_event_of_hasKey (now : String) (d : PyDict)
    (h1 : hasKey "timestamp" d = true) (h2 : hasKey "device_id" d = true)
    (h3 : hasKey "facility_id" d = true) (h4 : hasKey "zone_id" d = true)
    (h5 : hasKey "data_source" d = true) : enrich_event now d = d := by
  unfold enrich_event
  rw [dget_dsetdefault_of_hasKey d _ _ h1, dget_dsetdefault_of_hasKey d _ _ h2,
    dget_dsetdefault_of_hasKey d _ _ h3, dget_dsetdefault_of_hasKey d _ _ h4,
    dget_dsetdefault_of_hasKey d _ _ h5]

theorem enrich_hasKey_timestamp (now : String) (e : PyDict) :
    hasKey "timestamp" (enrich_event now e) = true := by
  unfold enrich_event
  exact hasKey_dsetdefault_mono _ _ _ _ (hasKey_dsetdefault_mono _ _ _ _
    (hasKey_dsetdefault_mono _ _ _ _ (hasKey_dsetdefault_mono _ _ _ _
      (hasKey_dsetdefault_self e "timestamp" (.str now)))))

theorem enrich_hasKey_device (now : String) (e : PyDict) :
    hasKey "device_id" (enrich_event now e) = true := by
  unfold enrich_event
  exact hasKey_dsetdefault_mono _ _ _ _ (hasKey_dsetdefault_mono _ _ _ _
    (hasKey_dsetdefault_mono _ _ _ _ (hasKey_dsetdefault_self _ "device_id" _)))

theorem enrich_hasKey_facility (now : String) (e : PyDict) :
    hasKey "facility_id" (enrich_event now e) = true := by
  unfold enrich_event
  exact hasKey_dsetdefault_mono _ _ _ _ (hasKey_dsetdefault_mono _ _ _ _
    (hasKey_dsetdefault_self _ "facility_id" _))

theorem enrich_hasKey_zone (now : String) (e : PyDict) :
    hasKey "zone_id" (enrich_event now e) = true := by
  unfold enrich_event
  exact hasKey_dsetdefault_mono _ _ _ _ (hasKey_dsetdefault_self _ "zone_id" _)

theorem enrich_hasKey_source (now : String) (e : PyDict) :
    hasKey "data_source" (enrich_event now e) = true := by
  unfold enrich_event
  exact hasKey_dsetdefault_self _ "data_source" _

/-- C10: `enrich_event` is idempotent — a second application (at any later
current time `now2`) changes nothing, because the first application
guarantees that `timestamp`, `device_id`, `facility_id`, `zone_id` and
`data_source` are all present — and it never overwrites a field already
present (every binding of the argument is read back unchanged from the
result).  The source's freedom from argument mutation (`event.copy()`) is
inherent to this pure embedding. -/
theorem enrich_event_idempotent (now now2 : String) (e : PyDict) :
    enrich_event now2 (enrich_event now e) = enrich_event now e ∧
    (∀ k v, dget k e = some v → dget k (enrich_event now e) = some v) := by
  refine ⟨enrich_event_of_hasKey now2 _ (enrich_hasKey_timestamp now e)
    (enrich_hasKey_device now e) (enrich_hasKey_facility now e)
    (enrich_hasKey_zone now e) (enrich_hasKey_source now e), ?_⟩
  intro k v hv
  unfold enrich_event
  exact dget_dsetdefault_of_some _ _ _ _ _ (dget_dsetdefault_of_some _ _ _ _ _
    (dget_dsetdefault_of_some _ _ _ _ _ (dget_dsetdefault_of_some _ _ _ _ _
      (dget_dsetdefault_of_some _ _ _ _ _ hv))))

/-- Witness for C10 at a concrete event. -/
theorem enrich_event_idempotent_witness :
    enrich_event "2025-01-02T00:00:00+00:00"
        (enrich_event "2025-01-01T00:00:00+00:00" [("space_id", PyVal.str "A-01")]) =
      enrich_event "2025-01-01T00:00:00+00:00" [("space_id", PyVal.str "A-01")] ∧
    dget "space_id" (enrich_event "2025-01-01T00:00:00+00:00" [("space_id", PyVal.str "A-01")]) =
      some (PyVal.str "A-01") :=
  ⟨(enrich_event_idempotent "2025-01-01T00:00:00+00:00" "2025-01-02T00:00:00+00:00"
      [("space_id", PyVal.str "A-01")]).1,
   (enrich_event_idempotent "2025-01-01T00:00:00+00:00" "2025-01-02T00:00:00+00:00"
      [("space_id", PyVal.str "A-01")]).2 "space_id" (PyVal.str "A-01") rfl⟩

/-! ### qa.py: validate_data -/

/-- Python `isinstance(v, (int, float))` combined with `float(v)`:
booleans are a subclass of `int` in Python, so they count as numeric,
`True` coercing to 1 and `False` to 0; any other value is rejected. -/
def asPyNumber : PyVal → Option ℚ
  | .num q => some q
  | .boolean b => some (if b then 1 else 0)
  | _ => none

/-- Python `str(v)` for the value reaching the status check; `reprS`
abstracts the textual rendering of non-string values. -/
def pyStrOf (reprS : PyVal → String) : PyVal → String
  | .str s => s
  | v => reprS v

/-- The source's `value.replace("Z", "+00:00")` applied before ISO-8601
parsing. -/
def replaceZ (s : String) : String := s.replace "Z" "+00:00"

/-- Python `s.lower()`, character by character.  `Char.toLower` maps the
ASCII range exactly as Python does; outside ASCII it is an approximation
of the Unicode case mapping, which can only affect the rendered reason
string, never acceptance (no non-ASCII character lowercases onto the
letters of "occupied"/"vacant"). -/
def strLower (s : String) : String := String.mk (s.data.map Char.toLower)

/-- The projections of the event dictionary that `validate_data` reads
(`data.get("confidence")`, `data.get("status", "")`,
`data.get("timestamp")`); `none` models an absent key. -/
structure EventData where
  confidence : Option PyVal
  status : Option PyVal
  timestamp : Option PyVal

/-- Embedding of `_parse_timestamp` (qa.py): a falsy value (absent key,
`None`, empty string, zero) is replaced by the current time `now`;
otherwise the value is parsed by `datetime.fromisoformat` after
Z-replacement (the stdlib parser is abstracted by the oracle `iso`).
The whole attempt sits inside a `try` whose `except Exception` re-raises
`ValueError("Invalid timestamp")`, so a failed parse and the
`AttributeError` of `.replace` on a truthy non-string value both surface
as the same `ValueError`. -/
def parse_timestamp (iso : String → Bool) (now : String)
    (value : Option PyVal) : Except String String :=
  match value with
  | none => .ok now
  | some v =>
    if truthy v = false then .ok now
    else
      match v with
      | .str s => if iso (replaceZ s) then .ok s else .error "Invalid timestamp"
      | _ => .error "Invalid timestamp"

/-- Embedding of `validate_data` (qa.py).  `iso` abstracts
`datetime.fromisoformat`, `fmtFloat` the Python rendering of a float in
an f-string, `reprS` the `str()` rendering of non-string status values.
`_parse_timestamp` raises only `ValueError`, which the source's
`except ValueError` turns into the "Invalid timestamp" rejection, so
the function always returns a pair. -/
def validate_data (iso : String → Bool) (fmtFloat : ℚ → String)
    (reprS : PyVal → String) (now : String)
    (space_id : PyVal) (data : EventData) : Bool × String :=
  match space_id with
  | .str s =>
    if s = "" then (false, "Missing space_id")
    else
      match asPyNumber (data.confidence.getD .null) with
      | none => (false, "Invalid confidence type")
      | some c =>
        if ¬ (0 ≤ c ∧ c ≤ 1) then
          (false, "Confidence out of range: " ++ fmtFloat c)
        else
          let status := strLower (pyStrOf reprS (data.status.getD (.str "")))
          if status ≠ "occupied" ∧ status ≠ "vacant" then
            (false, "Invalid status: " ++ status)
          else
            match parse_timestamp iso now data.timestamp with
            | .ok _ => (true, "")
            | .error _ => (false, "Invalid timestamp")
  | _ => (false, "Missing space_id")

/-- Validation layer 1, as the spec states it: `space_id` is a non-empty
string. -/
def sidOk (space_id : PyVal) : Prop := ∃ s, space_id = PyVal.str s ∧ s ≠ ""

/-- Validation layer 2: the confidence value is numeric. -/
def confNumeric (data : EventData) : Prop :=
  (asPyNumber (data.confidence.getD .null)).isSome = true

/-- Validation layer 3: the numeric confidence lies in the closed
interval from 0 to 1. -/
def confInRange (data : EventData) : Prop :=
  ∀ c, asPyNumber (data.confidence.getD .null) = some c → 0 ≤ c ∧ c ≤ 1

/-- The lower-cased textual status that the source compares against the
allowed set. -/
def statusText (reprS : PyVal → String) (data : EventData) : String :=
  strLower (pyStrOf reprS (data.status.getD (.str "")))

/-- Validation layer 4: the status is case-insensitively occupied or
vacant. -/
def statusOk (reprS : PyVal → String) (data : EventData) : Prop :=
  statusText reprS data = "occupied" ∨ statusText reprS data = "vacant"

/-- Validation layer 5: the timestamp, when present and non-empty
(Python-truthy), is a string that parses as ISO-8601 with a trailing Z
accepted as UTC offset. -/
def tsOk (iso : String → Bool) (data : EventData) : Prop :=
  truthy (data.timestamp.getD .null) = false ∨
    ∃ t, data.timestamp = some (PyVal.str t) ∧ iso (replaceZ t) = true


theorem parse_timestamp_ok_iff (iso : String → Bool) (now : String)
    (data : EventData) :
    (∃ r, parse_timestamp iso now data.timestamp = .ok r) ↔ tsOk iso data := by
  unfold tsOk
  cases hts : data.timestamp with
  | none => simp [parse_timestamp, truthy]
  | some v =>
    by_cases htv : truthy v = false
    · simp [parse_timestamp, htv]
    · have htv2 : truthy v = true := by
        cases h : truthy v
        · exact absurd h htv
        · rfl
      cases v with
      | str t =>
        cases hi : iso (replaceZ t) with
        | true => simp [parse_timestamp, htv2, hi]
        | false => simp [parse_timestamp, htv2, hi]
      | null => exact absurd rfl htv
      | boolean b => simp [parse_timestamp, htv2]
      | num q => simp [parse_timestamp, htv2]
      | arr xs => simp [parse_timestamp, htv2]
      | obj kvs => simp [parse_timestamp, htv2]

/-- C1: `validate_data` accepts exactly when all five layers pass, and
on rejection the reason is the first failing layer's, in the fixed order
space_id, confidence type, confidence range, status, timestamp, with the
exact reason strings of the source; every timestamp failure — an
unparseable truthy string or a truthy non-string — is the layer-5
rejection "Invalid timestamp" (`_parse_timestamp` converts any exception
to `ValueError`). -/
theorem validate_data_first_failing_layer (iso : String → Bool)
    (fmtFloat : ℚ → String) (reprS : PyVal → String) (now : String)
    (space_id : PyVal) (data : EventData) :
    (validate_data iso fmtFloat reprS now space_id data = (true, "") ↔
      sidOk space_id ∧ confNumeric data ∧ confInRange data ∧
        statusOk reprS data ∧ tsOk iso data) ∧
    (¬ sidOk space_id →
      validate_data iso fmtFloat reprS now space_id data =
        (false, "Missing space_id")) ∧
    (sidOk space_id → ¬ confNumeric data →
      validate_data iso fmtFloat reprS now space_id data =
        (false, "Invalid confidence type")) ∧
    (sidOk space_id →
      ∀ c, asPyNumber (data.confidence.getD .null) = some c →
        ¬ (0 ≤ c ∧ c ≤ 1) →
      validate_data iso fmtFloat reprS now space_id data =
        (false, "Confidence out of range: " ++ fmtFloat c)) ∧
    (sidOk space_id → confNumeric data → confInRange data →
      ¬ statusOk reprS data →
      validate_data iso fmtFloat reprS now space_id data =
        (false, "Invalid status: " ++ statusText reprS data)) ∧
    (sidOk space_id → confNumeric data → confInRange data →
      statusOk reprS data → ¬ tsOk iso data →
      validate_data iso fmtFloat reprS now space_id data =
        (false, "Invalid timestamp")) := by
  cases hsid : space_id with
  | str s =>
    by_cases hs : s = ""
    · subst hs
      have hns : ¬ sidOk (PyVal.str "") := by
        rintro ⟨s2, hs2, hne⟩
        cases hs2
        exact hne rfl
      simp [validate_data, hns]
    · have hyes : sidOk (PyVal.str s) := ⟨s, rfl, hs⟩
      cases hc : asPyNumber (data.confidence.getD .null) with
      | none =>
        have hnn : ¬ confNumeric data := by simp [confNumeric, hc]
        simp [validate_data, hs, hc, hyes, hnn]
      | some c =>
        have hnum : confNumeric data := by simp [confNumeric, hc]
        by_cases hr : 0 ≤ c ∧ c ≤ 1
        · have hir : confInRange data := by
            intro c2 hc2
            rw [hc] at hc2
            cases hc2
            exact hr
          by_cases hst : statusText reprS data = "occupied" ∨
              statusText reprS data = "vacant"
          · have hstc : ¬ (strLower (pyStrOf reprS (data.status.getD (.str ""))) ≠
                "occupied" ∧
                strLower (pyStrOf reprS (data.status.getD (.str ""))) ≠ "vacant") := by
              rcases hst with h | h <;> simp [statusText] at h <;> simp [h]
            cases hpt : parse_timestamp iso now data.timestamp with
            | ok r =>
              have htok : tsOk iso data :=
                (parse_timestamp_ok_iff iso now data).mp ⟨r, hpt⟩
              simp [validate_data, hs, hc, hr, hstc, hpt, hyes, hnum, hir,
                statusOk, hst, htok]
            | error e =>
              have htok : ¬ tsOk iso data := by
                intro h
                obtain ⟨r, hrr⟩ := (parse_timestamp_ok_iff iso now data).mpr h
                rw [hpt] at hrr
                exact Except.noConfusion hrr
              simp [validate_data, hs, hc, hr, hstc, hpt, hyes, hnum, hir,
                statusOk, hst, htok]
          · have hstc : strLower (pyStrOf reprS (data.status.getD (.str ""))) ≠
                "occupied" ∧
                strLower (pyStrOf reprS (data.status.getD (.str ""))) ≠ "vacant" := by
              constructor <;> intro h <;>
                exact hst (by simp [statusText, h])
            simp [validate_data, hs, hc, hr, hstc, hyes, hnum, hir, statusOk, hst,
              statusText]
        · have hnir : ¬ confInRange data := by
            intro h
            exact hr (h c hc)
          simp [validate_data, hs, hc, hr, hyes, hnum, hnir]
  | null =>
    have hns : ¬ sidOk PyVal.null := by rintro ⟨s2, hs2, hne⟩; cases hs2
    simp [validate_data, hns]
  | boolean b =>
    have hns : ¬ sidOk (PyVal.boolean b) := by rintro ⟨s2, hs2, hne⟩; cases hs2
    simp [validate_data, hns]
  | num q =>
    have hns : ¬ sidOk (PyVal.num q) := by rintro ⟨s2, hs2, hne⟩; cases hs2
    simp [validate_data, hns]
  | arr xs =>
    have hns : ¬ sidOk (PyVal.arr xs) := by rintro ⟨s2, hs2, hne⟩; cases hs2
    simp [validate_data, hns]
  | obj kvs =>
    have hns : ¬ sidOk (PyVal.obj kvs) := by rintro ⟨s2, hs2, hne⟩; cases hs2
    simp [validate_data, hns]

/-- Witness for C1: a concrete accepted event (case-insensitive status,
confidence 0.95, absent timestamp), a concrete out-of-range rejection at
confidence 1.5, and a truthy non-string timestamp rejected as
"Invalid timestamp". -/
theorem validate_data_first_failing_layer_witness :
    validate_data (fun _ => true) (fun _ => "1.5") (fun _ => "") "N"
        (PyVal.str "A-01")
        ⟨some (PyVal.num (19/20)), some (PyVal.str "OCCUPIED"), none⟩ =
      (true, "") ∧
    validate_data (fun _ => true) (fun _ => "1.5") (fun _ => "") "N"
        (PyVal.str "A-01")
        ⟨some (PyVal.num (3/2)), some (PyVal.str "occupied"), none⟩ =
      (false, "Confidence out of range: 1.5") ∧
    validate_data (fun _ => true) (fun _ => "1.5") (fun _ => "") "N"
        (PyVal.str "A-01")
        ⟨some (PyVal.num (19/20)), some (PyVal.str "occupied"),
         some (PyVal.boolean true)⟩ =
      (false, "Invalid timestamp") := by
  refine ⟨?_, ?_, ?_⟩
  · exact (validate_data_first_failing_layer _ _ _ _ _ _).1.mpr
      ⟨⟨"A-01", rfl, by decide⟩, rfl,
       (by
        intro c hc
        have hcv : c = 19/20 := by simpa [asPyNumber] using hc.symm
        subst hcv
        norm_num),
       Or.inl (by decide), Or.inl rfl⟩
  · exact (validate_data_first_failing_layer _ _ _ _ _ _).2.2.2.1
      ⟨"A-01", rfl, by decide⟩ (3/2) rfl (by norm_num)
  · exact (validate_data_first_failing_layer _ _ _ _ _ _).2.2.2.2.2
      ⟨"A-01", rfl, by decide⟩ rfl
      (by
        intro c hc
        have hcv : c = 19/20 := by simpa [asPyNumber] using hc.symm
        subst hcv
        norm_num)
      (Or.inl (by decide))
      (by
        rintro (h | ⟨t, ht, hi2⟩)
        · simp [truthy] at h
        · exact PyVal.noConfusion (Option.some.inj ht))

/-! ### alerts.py: generate_alerts -/

/-- Floor of a rational, computed through integer floor division. -/
def qfloor (q : ℚ) : ℤ := Int.fdiv q.num (q.den : ℤ)

/-- Rounding to the nearest integer (used to model Python fixed-point
f-string formatting of the exact values arising here). -/
def qround (q : ℚ) : ℤ := qfloor (q + 1/2)

/-- Fixed-point rendering with two decimals, modelling the `:.2f`
formatting of the source on the exact rational value. -/
def fmt2 (q : ℚ) : String :=
  let n : ℤ := qround (q * 100)
  (if n < 0 then "-" else "") ++ toString (n.natAbs / 100) ++ "." ++
    (if n.natAbs % 100 < 10 then "0" else "") ++ toString (n.natAbs % 100)

/-- Fixed-point rendering with no decimals, modelling the `:.0f`
formatting of the source on the exact rational value. -/
def fmt0 (q : ℚ) : String :=
  let n : ℤ := qround q
  (if n < 0 then "-" else "") ++ toString n.natAbs

/-- An alert record as built by `generate_alerts` (alerts.py); the
occupancy alerts carry no `space_id`. -/
structure Alert where
  type : String
  severity : String
  space_id : Option String
  message : String
deriving DecidableEq

/-- One accepted item as consumed by `generate_alerts`
(`item["space_id"]` and `float(item["confidence"])`). -/
structure Item where
  space_id : String
  confidence : ℚ
deriving DecidableEq

/-- Embedding of the per-item loop of `generate_alerts`: one
LOW_CONFIDENCE alert (severity WARNING) per item with confidence
strictly below 0.8, in item order. -/
def lowConfidenceAlerts : List Item → List Alert
  | [] => []
  | it :: rest =>
    (if it.confidence < 4/5 then
      [⟨"LOW_CONFIDENCE", "WARNING", some it.space_id,
        "Low confidence " ++ it.space_id ++ ": " ++ fmt2 it.confidence⟩]
    else []) ++ lowConfidenceAlerts rest

/-- The occupancy ratio of `generate_alerts`: `occupied / total if total
else 0`. -/
def occupancyRatio (occupied total : ℤ) : ℚ :=
  if total = 0 then 0 else (occupied : ℚ) / (total : ℚ)

/-- Embedding of `generate_alerts` (alerts.py).  `occupancy_stats` is the
optional `(occupied, total)` pair; `none` models Python `None`, which
skips the occupancy block (any tuple is truthy). -/
def generate_alerts (items : List Item) (occupancy_stats : Option (ℤ × ℤ)) :
    List Alert :=
  let alerts := lowConfidenceAlerts items
  match occupancy_stats with
  | none => alerts
  | some (occupied, total) =>
    let occupancy := occupancyRatio occupied total
    if occupancy ≥ 95/100 then
      alerts ++ [⟨"CRITICAL", "CRITICAL", none, fmt0 (occupancy * 100) ++ "% full"⟩]
    else if occupancy ≥ 80/100 then
      alerts ++ [⟨"HIGH", "WARNING", none, fmt0 (occupancy * 100) ++ "% full"⟩]
    else alerts

theorem lowConfidenceAlerts_eq_filter (items : List Item) :
    lowConfidenceAlerts items =
      (items.filter (fun it => it.confidence < 4/5)).map
        (fun it => ⟨"LOW_CONFIDENCE", "WARNING", some it.space_id,
          "Low confidence " ++ it.space_id ++ ": " ++ fmt2 it.confidence⟩) := by
  induction items with
  | nil => rfl
  | cons it rest ih =>
    by_cases h : it.confidence < 4/5 <;>
      simp [lowConfidenceAlerts, List.filter, h, ih]

theorem lowConfidenceAlerts_types (items : List Item) :
    ∀ a ∈ lowConfidenceAlerts items, a.type = "LOW_CONFIDENCE" := by
  induction items with
  | nil => simp [lowConfidenceAlerts]
  | cons it rest ih =>
    intro a ha
    by_cases h : it.confidence < 4/5
    · simp [lowConfidenceAlerts, h] at ha
      rcases ha with ha | ha
      · rw [ha]
      · exact ih a ha
    · simp [lowConfidenceAlerts, h] at ha
      exact ih a ha

theorem lowConfidenceAlerts_filter_ne (items : List Item) :
    (lowConfidenceAlerts items).filter (fun a => a.type ≠ "LOW_CONFIDENCE") = [] := by
  rw [List.filter_eq_nil_iff]
  intro a ha
  simp [lowConfidenceAlerts_types items a ha]

/-- C8: `generate_alerts` emits, before any occupancy alert, exactly one
LOW_CONFIDENCE alert of severity WARNING per item with confidence
strictly below 0.8 — in item order, carrying the item's `space_id` and
its confidence formatted to two decimals — and no LOW_CONFIDENCE alert
for any other item (the trailing alerts are never LOW_CONFIDENCE). -/
theorem generate_alerts_low_confidence (items : List Item)
    (occupancy_stats : Option (ℤ × ℤ)) :
    ∃ occAlerts : List Alert,
      generate_alerts items occupancy_stats =
        (items.filter (fun it => it.confidence < 4/5)).map
          (fun it => ⟨"LOW_CONFIDENCE", "WARNING", some it.space_id,
            "Low confidence " ++ it.space_id ++ ": " ++ fmt2 it.confidence⟩) ++
          occAlerts ∧
      ∀ a ∈ occAlerts, a.type ≠ "LOW_CONFIDENCE" := by
  rw [← lowConfidenceAlerts_eq_filter]
  match occupancy_stats with
  | none => exact ⟨[], by simp [generate_alerts], by simp⟩
  | some (occupied, total) =>
    by_cases h95 : occupancyRatio occupied total ≥ 95/100
    · refine ⟨[⟨"CRITICAL", "CRITICAL", none,
        fmt0 (occupancyRatio occupied total * 100) ++ "% full"⟩], ?_, by simp⟩
      simp [generate_alerts, h95]
    · by_cases h80 : occupancyRatio occupied total ≥ 80/100
      · refine ⟨[⟨"HIGH", "WARNING", none,
          fmt0 (occupancyRatio occupied total * 100) ++ "% full"⟩], ?_, by simp⟩
        simp [generate_alerts, h95, h80]
      · exact ⟨[], by simp [generate_alerts, h95, h80], by simp⟩

/-- Witness for C8 at one low-confidence item and one high-confidence
item, with occupancy stats attached. -/
theorem generate_alerts_low_confidence_witness :
    ∃ occAlerts : List Alert,
      generate_alerts ([⟨"A-01", 72/100⟩, ⟨"A-02", 9/10⟩] : List Item)
          (some (1, 1)) =
        (([⟨"A-01", 72/100⟩, ⟨"A-02", 9/10⟩] : List Item).filter
            (fun it => it.confidence < 4/5)).map
          (fun it => ⟨"LOW_CONFIDENCE", "WARNING", some it.space_id,
            "Low confidence " ++ it.space_id ++ ": " ++ fmt2 it.confidence⟩) ++
          occAlerts ∧
      ∀ a ∈ occAlerts, a.type ≠ "LOW_CONFIDENCE" :=
  generate_alerts_low_confidence
    ([⟨"A-01", 72/100⟩, ⟨"A-02", 9/10⟩] : List Item) (some (1, 1))

/-- C2: the occupancy alerts of `generate_alerts` follow the tiering on
the ratio occupied/total (0 when total = 0): exactly one CRITICAL alert
of severity CRITICAL when the ratio is at least 0.95, exactly one HIGH
alert of severity WARNING when the ratio is at least 0.80 and below
0.95, and none when the ratio is below 0.80 — closed lower bounds, at
most one occupancy alert per invocation. -/
theorem generate_alerts_occupancy_tiers (items : List Item)
    (occupied total : ℤ) :
    ((generate_alerts items (some (occupied, total))).filter
        (fun a => a.type ≠ "LOW_CONFIDENCE")) =
      (if occupancyRatio occupied total ≥ 95/100 then
        [⟨"CRITICAL", "CRITICAL", none,
          fmt0 (occupancyRatio occupied total * 100) ++ "% full"⟩]
      else if occupancyRatio occupied total ≥ 80/100 then
        [⟨"HIGH", "WARNING", none,
          fmt0 (occupancyRatio occupied total * 100) ++ "% full"⟩]
      else ([] : List Alert)) ∧
    (total = 0 → occupancyRatio occupied total = 0) := by
  constructor
  · by_cases h95 : occupancyRatio occupied total ≥ 95/100
    · simp [generate_alerts, h95, List.filter_append, lowConfidenceAlerts_filter_ne,
        List.filter]
      exact lowConfidenceAlerts_types items
    · by_cases h80 : occupancyRatio occupied total ≥ 80/100
      · simp [generate_alerts, h95, h80, List.filter_append,
          lowConfidenceAlerts_filter_ne, List.filter]
        exact lowConfidenceAlerts_types items
      · simp [generate_alerts, h95, h80, lowConfidenceAlerts_filter_ne]
        exact lowConfidenceAlerts_types items
  · intro h
    simp [occupancyRatio, h]

/-- Witness for C2: the closed boundary at ratio exactly 0.95 (19 of 20
occupied) produces the single CRITICAL alert. -/
theorem generate_alerts_occupancy_tiers_witness :
    ((generate_alerts [] (some (19, 20))).filter
        (fun a => a.type ≠ "LOW_CONFIDENCE")) =
      [⟨"CRITICAL", "CRITICAL", none, "95% full"⟩] := by
  have h := (generate_alerts_occupancy_tiers [] 19 20).1
  have h95 : occupancyRatio 19 20 ≥ 95/100 := by
    norm_num [occupancyRatio]
  have harg : occupancyRatio 19 20 * 100 = (95 : ℚ) := by norm_num [occupancyRatio]
  rw [h, if_pos h95, harg]
  have hf : fmt0 (95 : ℚ) = "95" := by
    unfold fmt0 qround qfloor
    norm_num
    decide
  rw [hf]
  decide

/-! ### yolo_processor.py: point_in_polygon and detection mapping -/

/-- A 2D point with exact rational coordinates. -/
abbrev Point := ℚ × ℚ

/-- Embedding of `point_in_polygon` (src/fog/src/yolo_processor.py): the
ray-casting loop over the edges of the implicitly closed polygon,
substituting the source's tiny epsilon denominator when an edge is
horizontal, and returning false for fewer than 3 vertices. -/
def point_in_polygon (point : Point) (polygon : List Point) : Bool :=
  let x := point.1
  let y := point.2
  let n := polygon.length
  if n < 3 then false
  else
    (List.range n).foldl
      (fun inside i =>
        let p1 := polygon.getD i (0, 0)
        let p2 := polygon.getD ((i + 1) % n) (0, 0)
        let denom := if p2.2 - p1.2 = 0 then (1 : ℚ) / 1000000000 else p2.2 - p1.2
        let intersects := (decide (p1.2 > y) != decide (p2.2 > y)) &&
          decide (x < (p2.1 - p1.1) * (y - p1.2) / denom + p1.1)
        if intersects then !inside else inside)
      false

/-- C3: `point_in_polygon` returns false for every polygon with fewer
than 3 vertices, and on the square (0,0)-(4,0)-(4,4)-(0,4) it holds the
interior point (2,2), excludes the exterior point (5,5), and holds the
point (0,2) lying exactly on the left edge (the documented asymmetric
edge tie-break). -/
theorem point_in_polygon_cases :
    (∀ (p : Point) (poly : List Point), poly.length < 3 →
      point_in_polygon p poly = false) ∧
    point_in_polygon (2, 2) [(0, 0), (4, 0), (4, 4), (0, 4)] = true ∧
    point_in_polygon (5, 5) [(0, 0), (4, 0), (4, 4), (0, 4)] = false ∧
    point_in_polygon (0, 2) [(0, 0), (4, 0), (4, 4), (0, 4)] = true := by
  refine ⟨?_, ?_, ?_, ?_⟩
  · intro p poly h
    simp [point_in_polygon, h]
  · norm_num [point_in_polygon, List.range_succ]
  · norm_num [point_in_polygon, List.range_succ]
  · norm_num [point_in_polygon, List.range_succ]

/-- Witness for C3: a degenerate two-vertex polygon contains nothing. -/
theorem point_in_polygon_cases_witness :
    point_in_polygon (1, 1) [(0, 0), (1, 1)] = false :=
  point_in_polygon_cases.1 (1, 1) [(0, 0), (1, 1)] (by decide)

/-- One raw detection as consumed by `_map_detections_to_spaces`: an
optional center point and an optional confidence. -/
structure Detection where
  center : Option Point
  confidence : Option ℚ

/-- The `ParkingSpaceROI` dataclass of yolo_processor.py. -/
structure ParkingSpaceROI where
  space_id : String
  polygon : List Point
deriving DecidableEq

/-- The loop of `YOLOProcessor._map_detections_to_spaces`: skip
detections without a center, assign each remaining detection to the
first stored ROI containing its center (`break` after the first hit),
and keep the per-space maximum confidence (`confidence > prev`),
with `detection.get("confidence") or 0.0` defaulting to 0. -/
def mapDetectionsGo (rois : List ParkingSpaceROI) :
    List Detection → List (String × ℚ) → List (String × ℚ)
  | [], occupancy => occupancy
  | det :: rest, occupancy =>
    match det.center with
    | none => mapDetectionsGo rois rest occupancy
    | some c =>
      match rois.find? (fun roi => point_in_polygon c roi.polygon) with
      | none => mapDetectionsGo rois rest occupancy
      | some roi =>
        let confidence := det.confidence.getD 0
        let occupancy2 :=
          match dget roi.space_id occupancy with
          | none => dset occupancy roi.space_id confidence
          | some prev =>
            if confidence > prev then dset occupancy roi.space_id confidence
            else occupancy
        mapDetectionsGo rois rest occupancy2

/-- Embedding of `YOLOProcessor._map_detections_to_spaces`
(yolo_processor.py), starting from an empty occupancy dictionary. -/
def _map_detections_to_spaces (rois : List ParkingSpaceROI)
    (detections : List Detection) : List (String × ℚ) :=
  mapDetectionsGo rois detections []

/-- The first configured ROI (in stored iteration order) whose polygon
contains the point. -/
def firstContainingRoi (rois : List ParkingSpaceROI) (c : Point) :
    Option String :=
  (rois.find? (fun roi => point_in_polygon c roi.polygon)).map
    ParkingSpaceROI.space_id

/-- The confidences of the detections of a batch that are assigned to
space `s`: detections carrying a center whose first containing ROI is
`s`, in batch order. -/
def assignedConfs (rois : List ParkingSpaceROI) :
    List Detection → String → List ℚ
  | [], _ => []
  | det :: rest, s =>
    (match det.center with
     | none => []
     | some c =>
       if firstContainingRoi rois c = some s then [det.confidence.getD 0]
       else []) ++ assignedConfs rois rest s

/-- Maximum accumulation as the loop performs it: fold the strict
`confidence > prev` update over the assigned confidences. -/
def accMax (o : Option ℚ) : List ℚ → Option ℚ
  | [] => o
  | c :: rest =>
    accMax (match o with
      | none => some c
      | some prev => some (if c > prev then c else prev)) rest

theorem if_gt_eq_max (a c : ℚ) : (if c > a then c else a) = max a c := by
  rcases le_or_lt c a with h | h
  · rw [if_neg (not_lt.mpr h), max_eq_left h]
  · rw [if_pos h, max_eq_right h.le]

theorem accMax_some (a : ℚ) (l : List ℚ) :
    accMax (some a) l = some (l.foldl max a) := by
  induction l generalizing a with
  | nil => rfl
  | cons c rest ih =>
    show accMax (some (if c > a then c else a)) rest = _
    rw [if_gt_eq_max, ih, List.foldl_cons]

theorem accMax_none_eq_max? (l : List ℚ) : accMax none l = l.max? := by
  cases l with
  | nil => rfl
  | cons c rest =>
    show accMax (some c) rest = _
    rw [accMax_some, List.max?]

theorem mapDetectionsGo_dget (rois : List ParkingSpaceROI)
    (dets : List Detection) (s : String) :
    ∀ occ, dget s (mapDetectionsGo rois dets occ) =
      accMax (dget s occ) (assignedConfs rois dets s) := by
  induction dets with
  | nil => intro occ; rfl
  | cons det rest ih =>
    intro occ
    cases hc : det.center with
    | none =>
      simp [mapDetectionsGo, hc, assignedConfs, ih]
    | some c =>
      cases hf : rois.find? (fun roi => point_in_polygon c roi.polygon) with
      | none =>
        have hfc : firstContainingRoi rois c = none := by
          simp [firstContainingRoi, hf]
        simp [mapDetectionsGo, hc, hf, assignedConfs, hfc, ih]
      | some roi =>
        have hfc : firstContainingRoi rois c = some roi.space_id := by
          simp [firstContainingRoi, hf]
        by_cases hs : roi.space_id = s
        · subst hs
          rw [show assignedConfs rois (det :: rest) roi.space_id =
              det.confidence.getD 0 :: assignedConfs rois rest roi.space_id by
            simp [assignedConfs, hc, hfc]]
          cases hprev : dget roi.space_id occ with
          | none =>
            simp only [mapDetectionsGo, hc, hf, hprev]
            rw [ih, dget_dset_self]
            rfl
          | some prev =>
            by_cases hgt : det.confidence.getD 0 > prev
            · simp only [mapDetectionsGo, hc, hf, hprev, if_pos hgt]
              rw [ih, dget_dset_self]
              show _ = accMax (some (if det.confidence.getD 0 > prev then _ else prev)) _
              rw [if_pos hgt]
            · simp only [mapDetectionsGo, hc, hf, hprev, if_neg hgt]
              rw [ih, hprev]
              show _ = accMax (some (if det.confidence.getD 0 > prev then _ else prev)) _
              rw [if_neg hgt]
        · rw [show assignedConfs rois (det :: rest) s =
              assignedConfs rois rest s by
            simp [assignedConfs, hc, hfc, hs]]
          cases hprev : dget roi.space_id occ with
          | none =>
            simp only [mapDetectionsGo, hc, hf, hprev]
            rw [ih, dget_dset_ne _ _ _ _ hs]
          | some prev =>
            by_cases hgt : det.confidence.getD 0 > prev
            · simp only [mapDetectionsGo, hc, hf, hprev, if_pos hgt]
              rw [ih, dget_dset_ne _ _ _ _ hs]
            · simp only [mapDetectionsGo, hc, hf, hprev, if_neg hgt]
              rw [ih]

theorem assignedConfs_ne_nil_mem (rois : List ParkingSpaceROI)
    (dets : List Detection) (s : String)
    (h : assignedConfs rois dets s ≠ []) :
    s ∈ rois.map ParkingSpaceROI.space_id := by
  induction dets with
  | nil => exact absurd rfl h
  | cons det rest ih =>
    cases hc : det.center with
    | none =>
      rw [show assignedConfs rois (det :: rest) s = assignedConfs rois rest s by
        simp [assignedConfs, hc]] at h
      exact ih h
    | some c =>
      by_cases hfc : firstContainingRoi rois c = some s
      · obtain ⟨roi, hroi, hmap⟩ := Option.map_eq_some'.mp hfc
        have hmem := List.mem_of_find?_eq_some hroi
        exact List.mem_map.mpr ⟨roi, hmem, hmap⟩
      · rw [show assignedConfs rois (det :: rest) s = assignedConfs rois rest s by
          simp [assignedConfs, hc, hfc]] at h
        exact ih h

/-- C5: in `_map_detections_to_spaces`, each space's stored value is the
maximum confidence among the detections assigned to it — a detection is
assigned to the first stored ROI whose polygon contains its center,
detections without a center or whose center lies in no polygon
contribute nothing — and every key of the result is a configured
space id. -/
theorem map_detections_to_spaces_spec (rois : List ParkingSpaceROI)
    (dets : List Detection) :
    (∀ s, dget s (_map_detections_to_spaces rois dets) =
      (assignedConfs rois dets s).max?) ∧
    (∀ s v, dget s (_map_detections_to_spaces rois dets) = some v →
      s ∈ rois.map ParkingSpaceROI.space_id) := by
  constructor
  · intro s
    rw [_map_detections_to_spaces, mapDetectionsGo_dget]
    exact accMax_none_eq_max? _
  · intro s v hv
    rw [_map_detections_to_spaces, mapDetectionsGo_dget] at hv
    rw [show dget s ([] : List (String × ℚ)) = none from rfl,
      accMax_none_eq_max?] at hv
    apply assignedConfs_ne_nil_mem rois dets s
    intro hnil
    rw [hnil] at hv
    exact Option.noConfusion hv

/-- Witness for C5: one detection centered inside the single configured
polygon is stored with its confidence, and the key-subset part applies
to it. -/
theorem map_detections_to_spaces_spec_witness :
    dget "A-01" (_map_detections_to_spaces
        [⟨"A-01", [(0, 0), (4, 0), (4, 4), (0, 4)]⟩]
        [⟨some (2, 2), some (9/10)⟩]) = some (9/10) ∧
    "A-01" ∈ ([⟨"A-01", [(0, 0), (4, 0), (4, 4), (0, 4)]⟩] :
        List ParkingSpaceROI).map ParkingSpaceROI.space_id := by
  have hass : assignedConfs [⟨"A-01", [(0, 0), (4, 0), (4, 4), (0, 4)]⟩]
      [⟨some (2, 2), some (9/10)⟩] "A-01" = [9/10] := by
    norm_num [assignedConfs, firstContainingRoi, List.find?, point_in_polygon,
      List.range_succ]
  have h1 := (map_detections_to_spaces_spec
      [⟨"A-01", [(0, 0), (4, 0), (4, 4), (0, 4)]⟩]
      [⟨some (2, 2), some (9/10)⟩]).1 "A-01"
  rw [hass] at h1
  refine ⟨h1, ?_⟩
  exact (map_detections_to_spaces_spec
      [⟨"A-01", [(0, 0), (4, 0), (4, 4), (0, 4)]⟩]
      [⟨some (2, 2), some (9/10)⟩]).2 "A-01" (9/10) h1

/-! ### yolo_processor.py: set_roi_spaces -/

/-- Python `float(v)` as applied to polygon coordinates: numbers and
booleans coerce; strings go through the oracle `strFloat` (numeric
strings parse, others raise); any other value raises. -/
def pyFloat (strFloat : String → Option ℚ) : PyVal → Option ℚ
  | .num q => some q
  | .boolean b => some (if b then 1 else 0)
  | .str s => strFloat s
  | _ => none

/-- Field read `entry.get(k)` performed by `set_roi_spaces`, which
treats non-mapping entries as having no fields. -/
def entryField (k : String) : PyVal → Option PyVal
  | .obj kvs => dget k kvs
  | _ => none

/-- Validation of one polygon point by `set_roi_spaces`: the point must
be a sequence of exactly two float-coercible values; the first failure
raises (`ValueError` for shape, the `float()` exception otherwise). -/
def validatePoint (strFloat : String → Option ℚ) (sid : String) :
    PyVal → Except String Point
  | .arr [a, b] =>
    match pyFloat strFloat a, pyFloat strFloat b with
    | some x, some y => .ok (x, y)
    | _, _ => .error "float() raises on a non-numeric coordinate"
  | _ => .error ("Polygon for " ++ sid ++ " must be [[x, y], ...] coordinates")

/-- The normalization loop over the points of one polygon, stopping at
the first failing point. -/
def validatePoints (strFloat : String → Option ℚ) (sid : String) :
    List PyVal → Except String (List Point)
  | [] => .ok []
  | p :: rest =>
    match validatePoint strFloat sid p with
    | .ok q =>
      match validatePoints strFloat sid rest with
      | .ok qs => .ok (q :: qs)
      | .error e => .error e
    | .error e => .error e

/-- Validation of one config entry by `set_roi_spaces`: a truthy string
`space_id` and a non-empty list polygon of at least 3 valid points. -/
def validateEntry (strFloat : String → Option ℚ) (entry : PyVal) :
    Except String ParkingSpaceROI :=
  match entryField "space_id" entry with
  | some (.str s) =>
    if s = "" then .error "ROI space entries require a string 'space_id'"
    else
      match entryField "polygon" entry with
      | some (.arr pts) =>
        if pts.length < 3 then
          .error ("Space " ++ s ++ " must define a polygon with >= 3 coordinate pairs")
        else
          match validatePoints strFloat s pts with
          | .ok normalized => .ok ⟨s, normalized⟩
          | .error e => .error e
      | _ =>
        .error ("Space " ++ s ++ " must define a polygon with >= 3 coordinate pairs")
  | _ => .error "ROI space entries require a string 'space_id'"

/-- Python dict write `processed[space_id] = roi` on the dictionary of
validated ROIs. -/
def roiInsert : List ParkingSpaceROI → ParkingSpaceROI → List ParkingSpaceROI
  | [], r => [r]
  | r0 :: rest, r =>
    if r0.space_id = r.space_id then r :: rest else r0 :: roiInsert rest r

/-- The entry loop of `set_roi_spaces`, accumulating the `processed`
dictionary and stopping at the first invalid entry. -/
def buildRois (strFloat : String → Option ℚ) :
    List PyVal → List ParkingSpaceROI → Except String (List ParkingSpaceROI)
  | [], processed => .ok processed
  | entry :: rest, processed =>
    match validateEntry strFloat entry with
    | .ok roi => buildRois strFloat rest (roiInsert processed roi)
    | .error e => .error e

/-- Embedding of `YOLOProcessor.set_roi_spaces` (yolo_processor.py) as a
pure computation of the new ROI dictionary; `.error` models the raised
exception (the spec's ConfigurationError). -/
def set_roi_spaces (strFloat : String → Option ℚ)
    (spaces_config : List PyVal) : Except String (List ParkingSpaceROI) :=
  if spaces_config.isEmpty then
    .error "ROI configuration must include at least one space"
  else buildRois strFloat spaces_config []

/-- The mutable `_roi_spaces` field of one `YOLOProcessor`. -/
structure YOLOProcessorState where
  roi_spaces : List ParkingSpaceROI

/-- `set_roi_spaces` as a state transition: the source assigns
`self._roi_spaces = processed` only after the whole config has been
validated, so a raised exception leaves the stored set untouched. -/
def run_set_roi_spaces (strFloat : String → Option ℚ)
    (st : YOLOProcessorState) (cfg : List PyVal) :
    YOLOProcessorState × Option String :=
  match set_roi_spaces strFloat cfg with
  | .ok processed => (⟨processed⟩, none)
  | .error e => (st, some e)

/-- A polygon point malformed in the claim's sense: not a 2-element
sequence of float-coercible values. -/
def pointMalformed (strFloat : String → Option ℚ) : PyVal → Bool
  | .arr [a, b] => !((pyFloat strFloat a).isSome && (pyFloat strFloat b).isSome)
  | _ => true

/-- An ROI entry malformed in the claim's sense: no string `space_id`;
or the polygon missing, not a list, or shorter than 3 points; or some
point malformed. -/
def entryMalformed (strFloat : String → Option ℚ) (entry : PyVal) : Bool :=
  match entryField "space_id" entry with
  | some (.str _) =>
    match entryField "polygon" entry with
    | some (.arr pts) =>
      decide (pts.length < 3) || pts.any (pointMalformed strFloat)
    | _ => true
  | _ => true

theorem validatePoint_error_of_malformed (strFloat : String → Option ℚ)
    (sid : String) (p : PyVal) (h : pointMalformed strFloat p = true) :
    ∃ e, validatePoint strFloat sid p = .error e := by
  cases p with
  | arr xs =>
    rcases xs with _ | ⟨a, _ | ⟨b, _ | ⟨c, rest⟩⟩⟩
    · exact ⟨_, rfl⟩
    · exact ⟨_, rfl⟩
    · simp [pointMalformed] at h
      cases ha : pyFloat strFloat a with
      | none => exact ⟨"float() raises on a non-numeric coordinate", by simp [validatePoint, ha]⟩
      | some x =>
        cases hb : pyFloat strFloat b with
        | none => exact ⟨"float() raises on a non-numeric coordinate", by simp [validatePoint, ha, hb]⟩
        | some y =>
          rw [ha] at h
          simp [Option.isSome, hb] at h
    · exact ⟨_, rfl⟩
  | null => exact ⟨_, rfl⟩
  | boolean b => exact ⟨_, rfl⟩
  | num q => exact ⟨_, rfl⟩
  | str s => exact ⟨_, rfl⟩
  | obj kvs => exact ⟨_, rfl⟩

theorem validatePoints_error_of_mem (strFloat : String → Option ℚ)
    (sid : String) (pts : List PyVal)
    (h : ∃ p ∈ pts, pointMalformed strFloat p = true) :
    ∃ e, validatePoints strFloat sid pts = .error e := by
  induction pts with
  | nil => simp at h
  | cons p rest ih =>
    obtain ⟨q, hq, hm⟩ := h
    rcases List.mem_cons.mp hq with rfl | hq2
    · obtain ⟨e, he⟩ := validatePoint_error_of_malformed strFloat sid q hm
      exact ⟨e, by simp [validatePoints, he]⟩
    · cases hp : validatePoint strFloat sid p with
      | error e => exact ⟨e, by simp [validatePoints, hp]⟩
      | ok pv =>
        obtain ⟨e, he⟩ := ih ⟨q, hq2, hm⟩
        exact ⟨e, by simp [validatePoints, hp, he]⟩

theorem validateEntry_error_of_malformed (strFloat : String → Option ℚ)
    (entry : PyVal) (h : entryMalformed strFloat entry = true) :
    ∃ e, validateEntry strFloat entry = .error e := by
  unfold entryMalformed at h
  cases hsid : entryField "space_id" entry with
  | none => exact ⟨"ROI space entries require a string 'space_id'", by simp [validateEntry, hsid]⟩
  | some v =>
    cases v with
    | str s =>
      rw [hsid] at h
      by_cases hs : s = ""
      · exact ⟨"ROI space entries require a string 'space_id'", by simp [validateEntry, hsid, hs]⟩
      · cases hpoly : entryField "polygon" entry with
        | none => exact ⟨("Space " ++ s ++ " must define a polygon with >= 3 coordinate pairs"), by simp [validateEntry, hsid, hs, hpoly]⟩
        | some pv =>
          cases pv with
          | arr pts =>
            rw [hpoly] at h
            simp only [Bool.or_eq_true, decide_eq_true_eq, List.any_eq_true] at h
            rcases h with hlen | ⟨q, hq, hm⟩
            · exact ⟨("Space " ++ s ++ " must define a polygon with >= 3 coordinate pairs"), by simp [validateEntry, hsid, hs, hpoly, hlen]⟩
            · by_cases hlen : pts.length < 3
              · exact ⟨("Space " ++ s ++ " must define a polygon with >= 3 coordinate pairs"), by simp [validateEntry, hsid, hs, hpoly, hlen]⟩
              · obtain ⟨e, he⟩ :=
                  validatePoints_error_of_mem strFloat s pts ⟨q, hq, hm⟩
                exact ⟨e, by simp [validateEntry, hsid, hs, hpoly, hlen, he]⟩
          | null => exact ⟨("Space " ++ s ++ " must define a polygon with >= 3 coordinate pairs"), by simp [validateEntry, hsid, hs, hpoly]⟩
          | boolean b => exact ⟨("Space " ++ s ++ " must define a polygon with >= 3 coordinate pairs"), by simp [validateEntry, hsid, hs, hpoly]⟩
          | num q => exact ⟨("Space " ++ s ++ " must define a polygon with >= 3 coordinate pairs"), by simp [validateEntry, hsid, hs, hpoly]⟩
          | str s2 => exact ⟨("Space " ++ s ++ " must define a polygon with >= 3 coordinate pairs"), by simp [validateEntry, hsid, hs, hpoly]⟩
          | obj kvs => exact ⟨("Space " ++ s ++ " must define a polygon with >= 3 coordinate pairs"), by simp [validateEntry, hsid, hs, hpoly]⟩
    | null => exact ⟨"ROI space entries require a string 'space_id'", by simp [validateEntry, hsid]⟩
    | boolean b => exact ⟨"ROI space entries require a string 'space_id'", by simp [validateEntry, hsid]⟩
    | num q => exact ⟨"ROI space entries require a string 'space_id'", by simp [validateEntry, hsid]⟩
    | arr xs => exact ⟨"ROI space entries require a string 'space_id'", by simp [validateEntry, hsid]⟩
    | obj kvs => exact ⟨"ROI space entries require a string 'space_id'", by simp [validateEntry, hsid]⟩

theorem buildRois_error_of_mem (strFloat : String → Option ℚ)
    (cfg : List PyVal)
    (h : ∃ entry ∈ cfg, ∃ e, validateEntry strFloat entry = .error e) :
    ∀ acc, ∃ msg, buildRois strFloat cfg acc = .error msg := by
  induction cfg with
  | nil => simp at h
  | cons entry rest ih =>
    intro acc
    obtain ⟨q, hq, e, he⟩ := h
    rcases List.mem_cons.mp hq with rfl | hq2
    · exact ⟨e, by simp [buildRois, he]⟩
    · cases hv : validateEntry strFloat entry with
      | error e2 => exact ⟨e2, by simp [buildRois, hv]⟩
      | ok roi =>
        obtain ⟨msg, hm⟩ := ih ⟨q, hq2, e, he⟩ (roiInsert acc roi)
        exact ⟨msg, by simp [buildRois, hv, hm]⟩

theorem buildRois_ok_spec (strFloat : String → Option ℚ) :
    ∀ (cfg : List PyVal) (acc out : List ParkingSpaceROI),
      buildRois strFloat cfg acc = .ok out →
      ∃ rois : List ParkingSpaceROI,
        cfg.map (validateEntry strFloat) = rois.map Except.ok ∧
        out = rois.foldl roiInsert acc := by
  intro cfg
  induction cfg with
  | nil =>
    intro acc out h
    simp [buildRois] at h
    exact ⟨[], by simp, by simp [h]⟩
  | cons entry rest ih =>
    intro acc out h
    cases hv : validateEntry strFloat entry with
    | error e => simp [buildRois, hv] at h
    | ok roi =>
      rw [show buildRois strFloat (entry :: rest) acc =
          buildRois strFloat rest (roiInsert acc roi) by
        simp [buildRois, hv]] at h
      obtain ⟨rois, hmap, hout⟩ := ih (roiInsert acc roi) out h
      exact ⟨roi :: rois, by simp [hv, hmap], by simp [hout]⟩

/-- C6: `set_roi_spaces` raises on an empty config and on any config
containing a malformed entry (no string space_id; polygon missing, not
a list, or with fewer than 3 points; a point that is not a 2-element
float-coercible pair); whenever it raises, the stored ROI set is left
unchanged, and whenever it succeeds, the stored set is exactly the fold
of the validated entries of the new config — atomic whole-set
replacement. -/
theorem set_roi_spaces_spec (strFloat : String → Option ℚ)
    (cfg : List PyVal) :
    (cfg = [] → ∃ msg, set_roi_spaces strFloat cfg = .error msg) ∧
    ((∃ entry ∈ cfg, entryMalformed strFloat entry = true) →
      ∃ msg, set_roi_spaces strFloat cfg = .error msg) ∧
    (∀ st : YOLOProcessorState,
      (run_set_roi_spaces strFloat st cfg).2.isSome = true →
      (run_set_roi_spaces strFloat st cfg).1 = st) ∧
    (∀ st : YOLOProcessorState,
      (run_set_roi_spaces strFloat st cfg).2 = none →
      ∃ rois : List ParkingSpaceROI,
        cfg.map (validateEntry strFloat) = rois.map Except.ok ∧
        (run_set_roi_spaces strFloat st cfg).1.roi_spaces =
          rois.foldl roiInsert []) := by
  refine ⟨?_, ?_, ?_, ?_⟩
  · intro h
    subst h
    exact ⟨_, rfl⟩
  · rintro ⟨entry, hmem, hmal⟩
    obtain ⟨e, he⟩ := validateEntry_error_of_malformed strFloat entry hmal
    obtain ⟨msg, hmsg⟩ :=
      buildRois_error_of_mem strFloat cfg ⟨entry, hmem, e, he⟩ []
    have hne : cfg.isEmpty = false := by
      cases cfg
      · simp at hmem
      · rfl
    exact ⟨msg, by simp [set_roi_spaces, hne, hmsg]⟩
  · intro st h
    unfold run_set_roi_spaces at h ⊢
    cases hres : set_roi_spaces strFloat cfg with
    | ok processed => rw [hres] at h; simp at h
    | error e => rfl
  · intro st h
    unfold run_set_roi_spaces at h ⊢
    cases hres : set_roi_spaces strFloat cfg with
    | error e => rw [hres] at h; simp at h
    | ok processed =>
      have hcfg : cfg.isEmpty = false := by
        cases hc : cfg.isEmpty
        · rfl
        · rw [set_roi_spaces, hc] at hres
          simp at hres
      rw [set_roi_spaces, hcfg] at hres
      simp only [Bool.false_eq_true, if_false] at hres
      obtain ⟨rois, hmap, hout⟩ := buildRois_ok_spec strFloat cfg [] processed hres
      exact ⟨rois, hmap, hout⟩

/-- Witness for C6: an entry without a space_id is rejected, and a
single well-formed triangle entry is stored as the whole ROI set. -/
theorem set_roi_spaces_spec_witness :
    (∃ msg, set_roi_spaces (fun _ => none) [PyVal.obj []] = .error msg) ∧
    (∃ rois : List ParkingSpaceROI,
      [PyVal.obj [("space_id", PyVal.str "A-01"),
        ("polygon", PyVal.arr [PyVal.arr [PyVal.num 0, PyVal.num 0],
          PyVal.arr [PyVal.num 4, PyVal.num 0],
          PyVal.arr [PyVal.num 4, PyVal.num 4]])]].map
            (validateEntry (fun _ => none)) = rois.map Except.ok ∧
      (run_set_roi_spaces (fun _ => none) ⟨[]⟩
        [PyVal.obj [("space_id", PyVal.str "A-01"),
          ("polygon", PyVal.arr [PyVal.arr [PyVal.num 0, PyVal.num 0],
            PyVal.arr [PyVal.num 4, PyVal.num 0],
            PyVal.arr [PyVal.num 4, PyVal.num 4]])]]).1.roi_spaces =
        rois.foldl roiInsert []) := by
  constructor
  · exact (set_roi_spaces_spec (fun _ => none) [PyVal.obj []]).2.1
      ⟨PyVal.obj [], List.mem_singleton.mpr rfl, rfl⟩
  · exact (set_roi_spaces_spec (fun _ => none) _).2.2.2 ⟨[]⟩ rfl

/-! ### publisher_utils.py: SpaceStateTracker.detect_changes -/

theorem mem_of_dget_some {α : Type} (d : List (String × α)) (k : String) (v : α)
    (h : dget k d = some v) : (k, v) ∈ d := by
  induction d with
  | nil => simp [dget] at h
  | cons kv rest ih =>
    by_cases hk : kv.1 = k
    · simp only [dget, if_pos hk, Option.some.injEq] at h
      have hkv : kv = (k, v) := by
        cases kv
        simp_all
      rw [← hkv]
      exact List.mem_cons_self _ _
    · simp only [dget, if_neg hk] at h
      exact List.mem_cons_of_mem _ (ih h)

theorem mem_dset_cases {α : Type} (d : List (String × α)) (k : String) (v : α)
    (kv : String × α) (h : kv ∈ dset d k v) : kv = (k, v) ∨ kv ∈ d := by
  induction d with
  | nil => simpa [dset] using h
  | cons kv0 rest ih =>
    by_cases hk : kv0.1 = k
    · simp only [dset, if_pos hk] at h
      rcases List.mem_cons.mp h with h | h
      · exact Or.inl h
      · exact Or.inr (List.mem_cons_of_mem _ h)
    · simp only [dset, if_neg hk] at h
      rcases List.mem_cons.mp h with h | h
      · exact Or.inr (h ▸ List.mem_cons_self _ _)
      · rcases ih h with h2 | h2
        · exact Or.inl h2
        · exact Or.inr (List.mem_cons_of_mem _ h2)

/-- One emitted change record of `SpaceStateTracker.detect_changes`:
`space_id`, the status and the confidence read from the snapshot
(`data.get(...)`, so `.null` when absent). -/
structure Change where
  space_id : String
  status : PyVal
  confidence : PyVal

/-- The loop of `SpaceStateTracker.detect_changes`
(src/fog/src/publisher_utils.py): one pass over the current snapshot,
appending a change for every space that is new to the memory (`not
prev`) or whose remembered status differs, then updating the memory
entry of every visited space. -/
def detectChangesGo : List (String × PyDict) → List (String × PyDict) →
    List Change × List (String × PyDict)
  | mem, [] => ([], mem)
  | mem, kv :: rest =>
    let status := pyGet "status" kv.2
    let confidence := pyGet "confidence" kv.2
    let emit :=
      match dget kv.1 mem with
      | none => true
      | some prev => !truthy (.obj prev) || !pyEq (pyGet "status" prev) status
    let mem2 := dset mem kv.1 [("status", status), ("confidence", confidence)]
    ((if emit then [⟨kv.1, status, confidence⟩] else []) ++
      (detectChangesGo mem2 rest).1,
     (detectChangesGo mem2 rest).2)

/-- Embedding of `SpaceStateTracker.detect_changes`: the emitted changes
together with the updated `_last_states` memory. -/
def detect_changes (mem current : List (String × PyDict)) :
    List Change × List (String × PyDict) :=
  detectChangesGo mem current

/-- The claim's emission condition relative to memory `mem`: the space
has no entry in the tracker yet, or its remembered status differs from
the current one (Python equality). -/
def emitsChange (mem : List (String × PyDict)) (kv : String × PyDict) : Bool :=
  match dget kv.1 mem with
  | none => true
  | some prev => !pyEq (pyGet "status" prev) (pyGet "status" kv.2)

theorem detectChangesGo_spec (current : List (String × PyDict))
    (hnd : (current.map Prod.fst).Nodup) :
    ∀ mem, (∀ kv ∈ mem, kv.2 ≠ ([] : PyDict)) →
      ((detectChangesGo mem current).1 =
        current.filterMap (fun kv =>
          if emitsChange mem kv then
            some ⟨kv.1, pyGet "status" kv.2, pyGet "confidence" kv.2⟩
          else none) ∧
      (∀ kv ∈ current, dget kv.1 (detectChangesGo mem current).2 =
        some [("status", pyGet "status" kv.2),
              ("confidence", pyGet "confidence" kv.2)]) ∧
      (∀ s, s ∉ current.map Prod.fst →
        dget s (detectChangesGo mem current).2 = dget s mem) ∧
      (∀ kv ∈ (detectChangesGo mem current).2, kv.2 ≠ ([] : PyDict))) := by
  induction current with
  | nil =>
    intro mem hne
    exact ⟨rfl, by simp, fun s _ => rfl, hne⟩
  | cons kv rest ih =>
    intro mem hne
    have hnodup :=
      List.nodup_cons.mp (show (kv.1 :: rest.map Prod.fst).Nodup from hnd)
    have hknotin : kv.1 ∉ rest.map Prod.fst := hnodup.1
    have hndrest : (rest.map Prod.fst).Nodup := hnodup.2
    have hemit : (match dget kv.1 mem with
        | none => true
        | some prev => !truthy (.obj prev) ||
            !pyEq (pyGet "status" prev) (pyGet "status" kv.2)) =
        emitsChange mem kv := by
      cases hp : dget kv.1 mem with
      | none => simp [emitsChange, hp]
      | some prev =>
        have hpne : prev ≠ [] := hne (kv.1, prev) (mem_of_dget_some _ _ _ hp)
        have ht : truthy (.obj prev) = true := by
          cases prev with
          | nil => exact absurd rfl hpne
          | cons a l => simp [truthy]
        simp [emitsChange, hp, ht]
    have hne2 : ∀ kv2 ∈ dset mem kv.1
        [("status", pyGet "status" kv.2), ("confidence", pyGet "confidence" kv.2)],
        kv2.2 ≠ ([] : PyDict) := by
      intro kv2 h2
      rcases mem_dset_cases _ _ _ _ h2 with h3 | h3
      · rw [h3]
        simp
      · exact hne kv2 h3
    obtain ⟨ih1, ih2, ih3, ih4⟩ := ih hndrest _ hne2
    have hkeys : ∀ kv2 ∈ rest, kv2.1 ≠ kv.1 := by
      intro kv2 h2 heq
      exact hknotin (heq ▸ List.mem_map_of_mem Prod.fst h2)
    have hfm : rest.filterMap (fun kv2 =>
        if emitsChange (dset mem kv.1
            [("status", pyGet "status" kv.2),
             ("confidence", pyGet "confidence" kv.2)]) kv2 then
          some (⟨kv2.1, pyGet "status" kv2.2, pyGet "confidence" kv2.2⟩ : Change)
        else none) =
        rest.filterMap (fun kv2 =>
          if emitsChange mem kv2 then
            some ⟨kv2.1, pyGet "status" kv2.2, pyGet "confidence" kv2.2⟩
          else none) := by
      apply List.filterMap_congr
      intro kv2 h2
      rw [show emitsChange (dset mem kv.1 _) kv2 = emitsChange mem kv2 by
        unfold emitsChange
        rw [dget_dset_ne _ _ _ _ (fun h => hkeys kv2 h2 h.symm)]]
    refine ⟨?_, ?_, ?_, ?_⟩
    · simp only [detectChangesGo]
      rw [hemit, ih1, hfm, List.filterMap_cons]
      cases he : emitsChange mem kv with
      | true => simp
      | false => simp
    · intro kv2 h2
      rcases List.mem_cons.mp h2 with rfl | h3
      · simp only [detectChangesGo]
        rw [ih3 kv2.1 hknotin, dget_dset_self]
      · simp only [detectChangesGo]
        exact ih2 kv2 h3
    · intro s hs
      have hs1 : s ≠ kv.1 := by
        intro h
        exact hs (by simp [h])
      have hs2 : s ∉ rest.map Prod.fst := by
        intro h
        exact hs (by simp [h])
      simp only [detectChangesGo]
      rw [ih3 s hs2, dget_dset_ne _ _ _ _ (fun h => hs1 h.symm)]
    · simp only [detectChangesGo]
      exact ih4

/-- C7: one `detect_changes` call on a tracker whose memory stores only
non-empty records emits exactly the spaces of its input that are new to
the memory or whose status differs from the remembered one (a change in
confidence alone is never emitted); afterwards the memory maps every
input space to its current status and confidence, entries for spaces
absent from the input are unchanged, and the memory again stores only
non-empty records (so the hypothesis holds for every reachable state,
the initial memory being empty). -/
theorem detect_changes_spec (mem current : List (String × PyDict))
    (hnd : (current.map Prod.fst).Nodup)
    (hne : ∀ kv ∈ mem, kv.2 ≠ ([] : PyDict)) :
    ((detect_changes mem current).1 =
      current.filterMap (fun kv =>
        if emitsChange mem kv then
          some ⟨kv.1, pyGet "status" kv.2, pyGet "confidence" kv.2⟩
        else none) ∧
    (∀ kv ∈ current, dget kv.1 (detect_changes mem current).2 =
      some [("status", pyGet "status" kv.2),
            ("confidence", pyGet "confidence" kv.2)]) ∧
    (∀ s, s ∉ current.map Prod.fst →
      dget s (detect_changes mem current).2 = dget s mem) ∧
    (∀ kv ∈ (detect_changes mem current).2, kv.2 ≠ ([] : PyDict))) :=
  detectChangesGo_spec current hnd mem hne

/-- Witness for C7: with one remembered occupied space, a snapshot that
only changes that space's confidence and adds a new space emits exactly
the new space. -/
theorem detect_changes_spec_witness :
    (detect_changes
        [("A-01", [("status", PyVal.str "occupied"), ("confidence", PyVal.num 1)])]
        [("A-01", [("status", PyVal.str "occupied"),
            ("confidence", PyVal.num (1/2))]),
         ("A-02", [("status", PyVal.str "vacant")])]).1 =
      [⟨"A-02", PyVal.str "vacant", PyVal.null⟩] := by
  have h := (detect_changes_spec
      [("A-01", [("status", PyVal.str "occupied"), ("confidence", PyVal.num 1)])]
      [("A-01", [("status", PyVal.str "occupied"),
          ("confidence", PyVal.num (1/2))]),
       ("A-02", [("status", PyVal.str "vacant")])]
      (by simp)
      (by
        rintro kv hkv
        simp only [List.mem_singleton] at hkv
        subst hkv
        simp)).1
  rw [h]
  rfl

/-! ### parser.py: _ensure_timestamp, _legacy_spaces_to_events, parse_events -/

theorem hasKey_dset {α : Type} (d : List (String × α)) (k k' : String) (v : α) :
    hasKey k (dset d k' v) = (hasKey k d || decide (k' = k)) := by
  by_cases h : k' = k
  · subst h
    simp [hasKey, dget_dset_self]
  · simp [hasKey, dget_dset_ne _ _ _ _ h, h]

theorem dset_eq_append_of_not_hasKey {α : Type} (d : List (String × α))
    (k : String) (v : α) (h : hasKey k d = false) : dset d k v = d ++ [(k, v)] := by
  induction d with
  | nil => rfl
  | cons kv rest ih =>
    have hk : kv.1 ≠ k := by
      intro he
      simp [hasKey, dget, he] at h
    have hrest : hasKey k rest = false := by
      simp [hasKey, dget, hk] at h
      simp [hasKey, h]
    simp [dset, hk, ih hrest]

theorem hasKey_dsetdefault_ne (d : PyDict) (k f : String) (v : PyVal)
    (h : k ≠ f) : hasKey f (dsetdefault d k v) = hasKey f d := by
  unfold dsetdefault
  cases hK : hasKey k d with
  | true => rfl
  | false =>
    simp only [hK, Bool.false_eq_true, if_false, hasKey, dget_append]
    cases hf : dget f d with
    | some w => simp [Option.orElse]
    | none => simp [Option.orElse, dget, h]

/-- The dict literal `{"space_id": space_id, **data}` of the legacy
fan-out: unpacked bindings are written over the base in order. -/
def mergeInto (base : PyDict) (upd : PyDict) : PyDict :=
  upd.foldl (fun d kv => dset d kv.1 kv.2) base

theorem mergeInto_cons (base : PyDict) (kv : String × PyVal) (rest : PyDict) :
    mergeInto base (kv :: rest) = mergeInto (dset base kv.1 kv.2) rest := rfl

theorem dget_mergeInto_of_not_hasKey (k : String) :
    ∀ (upd : PyDict), hasKey k upd = false →
      ∀ base, dget k (mergeInto base upd) = dget k base := by
  intro upd
  induction upd with
  | nil => intro _ base; rfl
  | cons kv rest ih =>
    intro h base
    have hk : kv.1 ≠ k := by
      intro he
      simp [hasKey, dget, he] at h
    have hrest : hasKey k rest = false := by
      simp [hasKey, dget, hk] at h
      simp [hasKey, h]
    rw [mergeInto_cons, ih hrest, dget_dset_ne _ _ _ _ hk]

theorem hasKey_mergeInto (k : String) :
    ∀ (upd : PyDict) (base : PyDict),
      hasKey k (mergeInto base upd) = (hasKey k base || hasKey k upd) := by
  intro upd
  induction upd with
  | nil => intro base; simp [mergeInto, hasKey, dget]
  | cons kv rest ih =>
    intro base
    rw [mergeInto_cons, ih, hasKey_dset]
    have : hasKey k (kv :: rest) = (decide (kv.1 = k) || hasKey k rest) := by
      by_cases hk : kv.1 = k <;> simp [hasKey, dget, hk]
    rw [this, Bool.or_assoc]

theorem dget_mergeInto_of_dget (k : String) (v : PyVal) :
    ∀ (upd : PyDict), (upd.map Prod.fst).Nodup → dget k upd = some v →
      ∀ base, dget k (mergeInto base upd) = some v := by
  intro upd
  induction upd with
  | nil => intro _ h; simp [dget] at h
  | cons kv rest ih =>
    intro hnd h base
    have hnodup :=
      List.nodup_cons.mp (show (kv.1 :: rest.map Prod.fst).Nodup from hnd)
    by_cases hk : kv.1 = k
    · simp only [dget, if_pos hk, Option.some.injEq] at h
      have hrest : hasKey k rest = false := by
        cases hK : hasKey k rest with
        | false => rfl
        | true =>
          obtain ⟨w, hw⟩ := Option.isSome_iff_exists.mp hK
          have hmem := List.mem_map_of_mem Prod.fst (mem_of_dget_some rest k w hw)
          exact absurd (hk ▸ hmem) hnodup.1
      rw [mergeInto_cons, dget_mergeInto_of_not_hasKey k rest hrest,
        ← hk, dget_dset_self, h]
    · simp only [dget, if_neg hk] at h
      rw [mergeInto_cons]
      exact ih hnodup.2 h _

/-- Embedding of `_ensure_timestamp` (parser.py): a falsy value (absent
key, `None`, empty string) is replaced by the current time, any truthy
value is returned unchanged. -/
def _ensure_timestamp (now : String) (value : Option PyVal) : PyVal :=
  let v := value.getD .null
  if truthy v then v else .str now

/-- One conditional metadata copy of the legacy fan-out:
`if value and key not in event: event[key] = value`. -/
def copyMeta (key : String) (v : Option PyVal) (event : PyDict) : PyDict :=
  match v with
  | some dv => if truthy dv && !hasKey key event then dset event key dv else event
  | none => event

/-- One fan-out event of `_legacy_spaces_to_events` for the entry
`(space_id, data)`: the dict literal `{"space_id": space_id, **data}`,
then the conditional timestamp fill and the three conditional metadata
copies, in source order. -/
def legacyEvent (now : String) (payload : PyDict) (space_id : String)
    (data : PyDict) : PyDict :=
  copyMeta "zone_id" (dget "zone_id" payload)
    (copyMeta "facility_id" (dget "facility_id" payload)
      (copyMeta "device_id" (dget "device_id" payload)
        (if hasKey "timestamp" (mergeInto [("space_id", .str space_id)] data) then
          mergeInto [("space_id", .str space_id)] data
        else
          dset (mergeInto [("space_id", .str space_id)] data) "timestamp"
            (_ensure_timestamp now (dget "timestamp" payload)))))

/-- The fan-out loop over `spaces.items()`: one event per entry, in
stored order; a non-mapping inner record raises (`**data` on a
non-mapping). -/
def legacyEventsLoop (now : String) (payload : PyDict) :
    List (String × PyVal) → Except String (List PyDict)
  | [] => .ok []
  | (sid, v) :: rest =>
    match v with
    | .obj data =>
      match legacyEventsLoop now payload rest with
      | .ok evs => .ok (legacyEvent now payload sid data :: evs)
      | .error e => .error e
    | _ => .error "TypeError"

/-- Embedding of `_legacy_spaces_to_events` (parser.py):
`payload.get("spaces", {}) or {}`, then the fan-out loop; iterating a
truthy non-mapping value raises. -/
def _legacy_spaces_to_events (now : String) (payload : PyDict) :
    Except String (List PyDict) :=
  let spacesV := (dget "spaces" payload).getD (.obj [])
  let spacesV2 := if truthy spacesV then spacesV else .obj []
  match spacesV2 with
  | .obj sp => legacyEventsLoop now payload sp
  | _ => .error "AttributeError"

theorem dget_dsetdefault_of_not_hasKey (d : PyDict) (k : String) (v : PyVal)
    (h : hasKey k d = false) : dget k (dsetdefault d k v) = some v := by
  have hd := dget_of_not_hasKey d k h
  simp [dsetdefault, h, dget_append, hd, Option.orElse, dget]

theorem dget_copyMeta_of_some (key : String) (mv : Option PyVal) (e : PyDict)
    (f : String) (v : PyVal) (h : dget f e = some v) :
    dget f (copyMeta key mv e) = some v := by
  cases mv with
  | none => exact h
  | some dv =>
    simp only [copyMeta]
    by_cases hc : (truthy dv && !hasKey key e) = true
    · rw [if_pos hc]
      by_cases hf : key = f
      · subst hf
        rw [Bool.and_eq_true, Bool.not_eq_true'] at hc
        rw [dget_of_not_hasKey e key hc.2] at h
        exact Option.noConfusion h
      · rw [dget_dset_ne _ _ _ _ hf]
        exact h
    · rw [if_neg hc]
      exact h

theorem dget_copyMeta_set (key : String) (dv : PyVal) (e : PyDict)
    (ht : truthy dv = true) (hk : hasKey key e = false) :
    dget key (copyMeta key (some dv) e) = some dv := by
  simp only [copyMeta]
  rw [if_pos (by simp [ht, hk]), dget_dset_self]

theorem hasKey_copyMeta_ne (key f : String) (mv : Option PyVal) (e : PyDict)
    (h : key ≠ f) : hasKey f (copyMeta key mv e) = hasKey f e := by
  cases mv with
  | none => rfl
  | some dv =>
    simp only [copyMeta]
    by_cases hc : (truthy dv && !hasKey key e) = true
    · rw [if_pos hc, hasKey_dset]
      simp [h]
    · rw [if_neg hc]

theorem legacyEvent_step1 (event0 : PyDict) (ts : PyVal) :
    (if hasKey "timestamp" event0 then event0
     else dset event0 "timestamp" ts) = dsetdefault event0 "timestamp" ts := by
  cases h : hasKey "timestamp" event0 with
  | true => simp [dsetdefault, h]
  | false => simp [dsetdefault, h, dset_eq_append_of_not_hasKey _ _ _ h]

theorem legacyEvent_props (now : String) (payload : PyDict) (sid : String)
    (d : PyDict) (hnd : (d.map Prod.fst).Nodup) :
    (hasKey "space_id" d = false →
      dget "space_id" (legacyEvent now payload sid d) = some (.str sid)) ∧
    (∀ f v, dget f d = some v →
      dget f (legacyEvent now payload sid d) = some v) ∧
    (hasKey "timestamp" d = false →
      dget "timestamp" (legacyEvent now payload sid d) =
        some (_ensure_timestamp now (dget "timestamp" payload))) ∧
    (∀ f dv, (f = "device_id" ∨ f = "facility_id" ∨ f = "zone_id") →
      hasKey f d = false → dget f payload = some dv → truthy dv = true →
      dget f (legacyEvent now payload sid d) = some dv) := by
  unfold legacyEvent
  rw [legacyEvent_step1]
  refine ⟨?_, ?_, ?_, ?_⟩
  · intro h
    have h0 : dget "space_id" (mergeInto [("space_id", .str sid)] d) =
        some (.str sid) := by
      rw [dget_mergeInto_of_not_hasKey "space_id" d h]
      rfl
    exact dget_copyMeta_of_some _ _ _ _ _ (dget_copyMeta_of_some _ _ _ _ _
      (dget_copyMeta_of_some _ _ _ _ _
        (dget_dsetdefault_of_some _ _ _ _ _ h0)))
  · intro f v hv
    have h0 := dget_mergeInto_of_dget f v d hnd hv [("space_id", .str sid)]
    exact dget_copyMeta_of_some _ _ _ _ _ (dget_copyMeta_of_some _ _ _ _ _
      (dget_copyMeta_of_some _ _ _ _ _
        (dget_dsetdefault_of_some _ _ _ _ _ h0)))
  · intro h
    have h0 : hasKey "timestamp" (mergeInto [("space_id", .str sid)] d) = false := by
      rw [hasKey_mergeInto, h]
      rfl
    have h1 := dget_dsetdefault_of_not_hasKey _ "timestamp"
      (_ensure_timestamp now (dget "timestamp" payload)) h0
    exact dget_copyMeta_of_some _ _ _ _ _ (dget_copyMeta_of_some _ _ _ _ _
      (dget_copyMeta_of_some _ _ _ _ _ h1))
  · intro f dv hf habs hget ht
    have h0 : hasKey f (mergeInto [("space_id", .str sid)] d) = false := by
      rw [hasKey_mergeInto, habs]
      rcases hf with rfl | rfl | rfl <;> rfl
    have h1 : hasKey f (dsetdefault (mergeInto [("space_id", .str sid)] d)
        "timestamp" (_ensure_timestamp now (dget "timestamp" payload))) = false := by
      rw [hasKey_dsetdefault_ne _ _ _ _ (by rcases hf with rfl | rfl | rfl <;> decide)]
      exact h0
    rcases hf with rfl | rfl | rfl
    · rw [hget]
      exact dget_copyMeta_of_some _ _ _ _ _ (dget_copyMeta_of_some _ _ _ _ _
        (dget_copyMeta_set _ _ _ ht h1))
    · rw [hget]
      have h2 : hasKey "facility_id" (copyMeta "device_id"
          (dget "device_id" payload)
          (dsetdefault (mergeInto [("space_id", PyVal.str sid)] d) "timestamp"
            (_ensure_timestamp now (dget "timestamp" payload)))) = false := by
        rw [hasKey_copyMeta_ne _ _ _ _ (by decide)]
        exact h1
      exact dget_copyMeta_of_some _ _ _ _ _ (dget_copyMeta_set _ _ _ ht h2)
    · rw [hget]
      have h2 : hasKey "zone_id" (copyMeta "facility_id"
          (dget "facility_id" payload) (copyMeta "device_id"
            (dget "device_id" payload)
            (dsetdefault (mergeInto [("space_id", PyVal.str sid)] d) "timestamp"
              (_ensure_timestamp now (dget "timestamp" payload))))) = false := by
        rw [hasKey_copyMeta_ne _ _ _ _ (by decide),
          hasKey_copyMeta_ne _ _ _ _ (by decide)]
        exact h1
      exact dget_copyMeta_set _ _ _ ht h2

/-- C9 counterexample: the claim as stated fails on the code — when the
inner record itself carries a `space_id`, the event does not carry the
mapping key as its space_id, because the unpacking
`{"space_id": space_id, **data}` lets the inner binding win. -/
theorem legacy_spaces_inner_space_id_wins :
    ∃ ev : PyDict, _legacy_spaces_to_events "NOW"
        [("spaces", PyVal.obj
          [("A-01", PyVal.obj [("space_id", PyVal.str "B-99")])])] = .ok [ev] ∧
      dget "space_id" ev = some (PyVal.str "B-99") ∧
      ¬ dget "space_id" ev = some (PyVal.str "A-01") := by
  refine ⟨[("space_id", PyVal.str "B-99"), ("timestamp", PyVal.str "NOW")],
    ?_, rfl, ?_⟩
  · rfl
  · intro h
    have h2 := PyVal.str.inj (Option.some.inj h)
    exact absurd h2 (by decide)

/-- The per-entry contract of the legacy fan-out (C9 as amended): the
mapping key becomes the event's `space_id` when the inner record has
none; inner bindings are never overwritten; a missing inner timestamp is
filled from the top level (falling back to the current time); the three
metadata fields are copied only when truthy at top level and absent from
the inner record. -/
def legacyEventContract (now : String) (payload : PyDict)
    (kv : String × PyVal) (ev : PyDict) : Prop :=
  ∀ d : PyDict, kv.2 = .obj d →
    (hasKey "space_id" d = false → dget "space_id" ev = some (.str kv.1)) ∧
    (∀ f v, dget f d = some v → dget f ev = some v) ∧
    (hasKey "timestamp" d = false →
      dget "timestamp" ev =
        some (_ensure_timestamp now (dget "timestamp" payload))) ∧
    (∀ f dv, (f = "device_id" ∨ f = "facility_id" ∨ f = "zone_id") →
      hasKey f d = false → dget f payload = some dv → truthy dv = true →
      dget f ev = some dv)

theorem legacyEventsLoop_spec (now : String) (payload : PyDict) :
    ∀ (l : List (String × PyVal)),
      (∀ kv ∈ l, ∃ d : PyDict, kv.2 = .obj d ∧ (d.map Prod.fst).Nodup) →
      ∃ evs : List PyDict, legacyEventsLoop now payload l = .ok evs ∧
        List.Forall₂ (legacyEventContract now payload) l evs := by
  intro l
  induction l with
  | nil => exact fun _ => ⟨[], rfl, List.Forall₂.nil⟩
  | cons kv rest ih =>
    intro hl
    obtain ⟨d, hd, hnd⟩ := hl kv (List.mem_cons_self _ _)
    obtain ⟨evs, hevs, hfa⟩ :=
      ih (fun kv2 h2 => hl kv2 (List.mem_cons_of_mem _ h2))
    obtain ⟨sid, v⟩ := kv
    simp only at hd
    subst hd
    refine ⟨legacyEvent now payload sid d :: evs, ?_, ?_⟩
    · simp [legacyEventsLoop, hevs]
    · refine List.Forall₂.cons ?_ hfa
      intro d2 hd2
      have hdd : d = d2 := PyVal.obj.inj hd2
      subst hdd
      exact legacyEvent_props now payload sid d hnd

/-- C9 (amended): for a payload whose `spaces` value is a mapping of
record mappings (distinct keys per record, as Python dicts guarantee),
the legacy fan-out succeeds and produces exactly one event per key, in
stored order; each event satisfies the per-entry contract: the mapping
key becomes its `space_id` unless the inner record itself carries a
`space_id` (the inner value then wins), inner bindings are never
overwritten, the top-level timestamp (current time when missing or
falsy) fills a missing inner timestamp, and `device_id`, `facility_id`,
`zone_id` are copied only when truthy at top level and absent from the
inner record. -/
theorem legacy_spaces_to_events_spec (now : String) (payload : PyDict)
    (sp : List (String × PyVal))
    (hsp : dget "spaces" payload = some (.obj sp))
    (hobj : ∀ kv ∈ sp, ∃ d : PyDict, kv.2 = .obj d ∧ (d.map Prod.fst).Nodup) :
    ∃ evs : List PyDict,
      _legacy_spaces_to_events now payload = .ok evs ∧
      evs.length = sp.length ∧
      List.Forall₂ (legacyEventContract now payload) sp evs := by
  obtain ⟨evs, hevs, hfa⟩ := legacyEventsLoop_spec now payload sp hobj
  refine ⟨evs, ?_, (List.Forall₂.length_eq hfa).symm, hfa⟩
  unfold _legacy_spaces_to_events
  rw [hsp]
  cases sp with
  | nil =>
    have hnil : evs = [] := by
      have h2 : (Except.ok ([] : List PyDict) : Except String (List PyDict)) =
          Except.ok evs := by
        rw [← hevs]
        rfl
      exact (Except.ok.inj h2).symm
    subst hnil
    rfl
  | cons kv0 rest0 =>
    simpa [truthy] using hevs

/-- Witness for C9 (amended) on a concrete legacy snapshot with one
space and a top-level device_id. -/
theorem legacy_spaces_to_events_spec_witness :
    ∃ evs : List PyDict,
      _legacy_spaces_to_events "NOW"
        [("device_id", PyVal.str "dev-1"),
         ("spaces", PyVal.obj
           [("A-01", PyVal.obj [("status", PyVal.str "occupied")])])] =
        .ok evs ∧
      evs.length =
        ([("A-01", PyVal.obj [("status", PyVal.str "occupied")])] :
          List (String × PyVal)).length ∧
      List.Forall₂ (legacyEventContract "NOW"
        [("device_id", PyVal.str "dev-1"),
         ("spaces", PyVal.obj
           [("A-01", PyVal.obj [("status", PyVal.str "occupied")])])])
        [("A-01", PyVal.obj [("status", PyVal.str "occupied")])] evs :=
  legacy_spaces_to_events_spec "NOW"
    [("device_id", PyVal.str "dev-1"),
     ("spaces", PyVal.obj
       [("A-01", PyVal.obj [("status", PyVal.str "occupied")])])]
    [("A-01", PyVal.obj [("status", PyVal.str "occupied")])]
    rfl
    (by
      intro kv hkv
      simp only [List.mem_singleton] at hkv
      subst hkv
      exact ⟨[("status", PyVal.str "occupied")], rfl, by simp⟩)

/-- The dispatch of `parse_events` after the `None` check and the string
parse: a list is returned as is; a mapping follows the precedence
events > spaces > space_id; anything else yields the empty sequence. -/
def parseShape (now : String) (v : PyVal) : Except String (List PyVal) :=
  match v with
  | .arr xs => .ok xs
  | .obj kvs =>
    match dget "events" kvs with
    | some (.arr evs) => .ok evs
    | _ =>
      if hasKey "spaces" kvs then
        (_legacy_spaces_to_events now kvs).map (List.map PyVal.obj)
      else if hasKey "space_id" kvs then
        .ok [.obj (if hasKey "timestamp" kvs then kvs
          else dset kvs "timestamp" (.str now))]
      else .ok []
  | _ => .ok []

/-- Embedding of `parse_events` (parser.py).  `jp` abstracts
`json.loads` (`none` models `JSONDecodeError`); a parsed value flows
through the remaining checks, so a parsed JSON string literal ends in
the final empty return just like any other non-list non-mapping. -/
def parse_events (jp : String → Option PyVal) (now : String)
    (raw_event : PyVal) : Except String (List PyVal) :=
  match raw_event with
  | .null => .ok []
  | .str s =>
    match jp s with
    | none => .ok []
    | some v => parseShape now v
  | v => parseShape now v

theorem parseShape_no_events (now : String) (kvs : PyDict)
    (h : ∀ evs, dget "events" kvs ≠ some (.arr evs)) :
    parseShape now (.obj kvs) =
      (if hasKey "spaces" kvs then
        (_legacy_spaces_to_events now kvs).map (List.map PyVal.obj)
      else if hasKey "space_id" kvs then
        .ok [.obj (if hasKey "timestamp" kvs then kvs
          else dset kvs "timestamp" (.str now))]
      else .ok []) := by
  cases he : dget "events" kvs with
  | none => simp [parseShape, he]
  | some v =>
    cases v with
    | arr evs => exact absurd he (h evs)
    | null => simp [parseShape, he]
    | boolean b => simp [parseShape, he]
    | num q => simp [parseShape, he]
    | str s => simp [parseShape, he]
    | obj kvs2 => simp [parseShape, he]

/-- C4: `parse_events` maps `None` to the empty sequence, an unparseable
JSON string to the empty sequence, and a list to itself unchanged; a
mapping follows the fixed precedence events > spaces > space_id — a
present `events` list is returned, otherwise a present `spaces` key
routes to the legacy fan-out, otherwise a present `space_id` key wraps
the mapping as a single-element sequence with the timestamp filled in
when absent; every other input yields the empty sequence. -/
theorem parse_events_precedence (jp : String → Option PyVal) (now : String) :
    (parse_events jp now .null = .ok []) ∧
    (∀ s, jp s = none → parse_events jp now (.str s) = .ok []) ∧
    (∀ xs, parse_events jp now (.arr xs) = .ok xs) ∧
    (∀ kvs evs, dget "events" kvs = some (.arr evs) →
      parse_events jp now (.obj kvs) = .ok evs) ∧
    (∀ kvs, (∀ evs, dget "events" kvs ≠ some (.arr evs)) →
      hasKey "spaces" kvs = true →
      parse_events jp now (.obj kvs) =
        (_legacy_spaces_to_events now kvs).map (List.map PyVal.obj)) ∧
    (∀ kvs, (∀ evs, dget "events" kvs ≠ some (.arr evs)) →
      hasKey "spaces" kvs = false → hasKey "space_id" kvs = true →
      parse_events jp now (.obj kvs) =
        .ok [.obj (if hasKey "timestamp" kvs then kvs
          else dset kvs "timestamp" (.str now))]) ∧
    (∀ kvs, (∀ evs, dget "events" kvs ≠ some (.arr evs)) →
      hasKey "spaces" kvs = false → hasKey "space_id" kvs = false →
      parse_events jp now (.obj kvs) = .ok []) ∧
    (∀ b, parse_events jp now (.boolean b) = .ok []) ∧
    (∀ q, parse_events jp now (.num q) = .ok []) := by
  refine ⟨rfl, ?_, fun xs => rfl, ?_, ?_, ?_, ?_, fun b => rfl, fun q => rfl⟩
  · intro s hs
    simp [parse_events, hs]
  · intro kvs evs he
    show parseShape now (.obj kvs) = .ok evs
    simp [parseShape, he]
  · intro kvs he hsp
    show parseShape now (.obj kvs) = _
    rw [parseShape_no_events now kvs he, if_pos hsp]
  · intro kvs he hsp hsid
    show parseShape now (.obj kvs) = _
    rw [parseShape_no_events now kvs he]
    simp [hsp, hsid]
  · intro kvs he hsp hsid
    show parseShape now (.obj kvs) = _
    rw [parseShape_no_events now kvs he]
    simp [hsp, hsid]

/-- Witness for C4: an unparseable string yields the empty sequence, and
a direct single-event mapping is wrapped with a timestamp filled in. -/
theorem parse_events_precedence_witness :
    parse_events (fun _ => none) "NOW" (PyVal.str "not json") = .ok [] ∧
    parse_events (fun _ => none) "NOW"
        (PyVal.obj [("space_id", PyVal.str "A-01")]) =
      .ok [PyVal.obj (if hasKey "timestamp" [("space_id", PyVal.str "A-01")] then
        [("space_id", PyVal.str "A-01")]
      else dset [("space_id", PyVal.str "A-01")] "timestamp" (PyVal.str "NOW"))] := by
  constructor
  · exact (parse_events_precedence (fun _ => none) "NOW").2.1 "not json" rfl
  · exact (parse_events_precedence (fun _ => none) "NOW").2.2.2.2.2.1
      [("space_id", PyVal.str "A-01")]
      (by
        intro evs h
        rw [show dget "events" [("space_id", PyVal.str "A-01")] = none from rfl] at h
        exact Option.noConfusion h)
      rfl rfl

end TeraSpot
